import Mathlib

/-!
# go-luatable: the Lua table encoder of `luatable/encode.go`

A shallow embedding of `Encode` and the functions it calls, followed by the
properties of the specification that were checked against it.

Conventions of the embedding.

* A `reflect.Value` is a `GoValue`; the reflect kinds the source never tells
  apart are merged (`Int`..`Int64`, `Uint`..`Uint64`, `Float32`/`Float64`,
  `Array`/`Slice`, and every kind the source has no case for).
* Go strings are Lean strings; the text of a `bytes.Buffer` is the string
  written so far, and `WriteString` is `++`.
* A Go result pair `(string, error)` is `String × Option EncodeError`.
* A `for` loop over the elements of a container is a recursive function over
  the list of elements that threads the buffer; the body of each
  `reflectStringify*` function takes its loop as an argument, so that the loops
  can call it on nested containers by structural recursion.
* `indentSize` is a natural number: the source starts at 1 and only adds 1.
-/

namespace luatable

/-! ## Values -/

/-- The kinds of `reflect.Value` the encoder distinguishes. `Slice` stands for
`reflect.Array` and `reflect.Slice`, `Int`, `Uint` and `Float` for all widths,
`Other` for the kinds no `case` of the source names (complex numbers, channels,
functions, unsafe pointers, `uintptr`). -/
inductive Kind where
  | Invalid
  | Bool
  | Int
  | Uint
  | Float
  | String
  | Slice
  | Map
  | Struct
  | Ptr
  | Interface
  | Other
deriving DecidableEq, Repr

/-- A floating-point number as far as the encoder looks at it: whether it
compares equal to zero, and the text `fmt.Sprint` prints for it. The digits of
a non-zero number are taken as given. -/
inductive GoFloat where
  | zero (negative : Bool)
  | nonzero (text : String)
deriving DecidableEq, Repr

/-- The data of a `reflect.StructField` the encoder reads: `Name`, `PkgPath`
(empty for an exported field), `Anonymous` (an embedded field) and `luaTag`,
the result of `Tag.Get("lua")` (empty when the field has no `lua` tag). -/
structure StructField where
  Name : String
  PkgPath : String
  Anonymous : Bool
  luaTag : String
deriving DecidableEq, Repr

/-- A Go value as `reflect` presents it. `invalid` is `reflect.ValueOf(nil)`;
`seq` is an array or slice (a nil slice is `seq []`); `map` lists the entries in
the order `MapRange` enumerates them on this run; `struct` lists the fields in
declaration order; `nilIface`/`iface` is a slot of interface type, whose kind
is `Interface` whatever it holds. The elements of a Go array or slice, and the
values of a Go map, all have the element type of the container, so they all
have one kind: a sequence that holds values of several kinds is a slice of
interface type, and each of its elements is an `iface`. -/
inductive GoValue where
  | invalid
  | bool (b : Bool)
  | int (i : Int)
  | uint (n : Nat)
  | float (f : GoFloat)
  | str (s : String)
  | other
  | nilPtr
  | ptr (target : GoValue)
  | nilIface
  | iface (dyn : GoValue)
  | seq (items : List GoValue)
  | map (entries : List (String × GoValue))
  | struct (fields : List (StructField × GoValue))

/-- The `Kind()` of a value. -/
def GoValue.Kind : GoValue → Kind
  | .invalid => .Invalid
  | .bool _ => .Bool
  | .int _ => .Int
  | .uint _ => .Uint
  | .float _ => .Float
  | .str _ => .String
  | .other => .Other
  | .nilPtr => .Ptr
  | .ptr _ => .Ptr
  | .nilIface => .Interface
  | .iface _ => .Interface
  | .seq _ => .Slice
  | .map _ => .Map
  | .struct _ => .Struct

/-- The one error of the package,
`fmt.Errorf("luatable: Encode() expects struct input. Got %v", value.Kind())`,
kept as the kind it reports. -/
inductive EncodeError where
  | expectsStruct (kind : Kind)
deriving DecidableEq, Repr

/-- A Go `(string, error)` pair; `none` is the `nil` error. -/
abbrev Result := String × Option EncodeError

/-- The exported variable `EmptyTable`, read as the constant it is set to. -/
def EmptyTable : String := "return \x7b\x7d"

/-! ## Library functions the source calls -/

/-- The text `strings.Repeat(s, count)`. -/
def Repeat (s : String) : Nat → String
  | 0 => ""
  | count + 1 => s ++ Repeat s count

/-- The characters of `strings.ReplaceAll(s, old, new)` for a pattern `old` of
one character, which is what both call sites pass. -/
def replaceChars (old : Char) (new : List Char) : List Char → List Char
  | [] => []
  | c :: cs => (if c = old then new else [c]) ++ replaceChars old new cs

/-- The text `strings.ReplaceAll(s, old, new)` for a one-character `old`. -/
def ReplaceAll (s : String) (old : Char) (new : String) : String :=
  String.mk (replaceChars old new.data s.data)

/-- The pieces of `strings.Split(s, sep)` for a one-character separator, as
character lists: one piece more than there are separators. -/
def splitChars (sep : Char) : List Char → List (List Char)
  | [] => [[]]
  | c :: cs =>
    if c = sep then [] :: splitChars sep cs
    else
      match splitChars sep cs with
      | [] => [[c]]
      | piece :: pieces => (c :: piece) :: pieces

/-- The list `strings.Split(s, sep)` for a one-character separator. -/
def Split (s : String) (sep : Char) : List String :=
  (splitChars sep s.data).map String.mk

/-- The text `fmt.Sprint` prints for a floating-point number. -/
def GoFloat.format : GoFloat → String
  | .zero false => "0"
  | .zero true => "-0"
  | .nonzero text => text

/-- Whether `value.Float() == 0`. -/
def GoFloat.isZero : GoFloat → Bool
  | .zero _ => true
  | .nonzero _ => false

/-! ## Tags -/

/-- The type `tagOptions`, a slice of strings. -/
abbrev tagOptions := List String

/-- The method `Contains` of `tagOptions`. -/
def tagOptions.Contains : tagOptions → String → Bool
  | [], _ => false
  | value :: rest, option => if value = option then true else tagOptions.Contains rest option

/-- The function `parseTag`: `s[0]` and `s[1:]` of the tag split at its commas. -/
def parseTag (tag : String) : String × tagOptions :=
  match Split tag ',' with
  | [] => ("", [])
  | name :: options => (name, options)

/-- The function `isEmptyValue`. -/
def isEmptyValue : GoValue → Bool
  | .seq items => items.length == 0
  | .map entries => entries.length == 0
  | .str s => s.length == 0
  | .bool b => !b
  | .int i => i == 0
  | .uint n => n == 0
  | .float f => f.isZero
  | .nilIface => true
  | .iface _ => false
  | .nilPtr => true
  | .ptr _ => false
  | .invalid => false
  | .other => false
  | .struct _ => false

/-! ## Scalars and keys -/

/-- The function `valueString`. Its two last parameters are not read by the
source either. -/
def valueString : GoValue → tagOptions → StructField → String
  | .nilPtr, _, _ => "nil"
  | .ptr target, options, field => valueString target options field
  | .str s, _, _ => "'" ++ ReplaceAll (ReplaceAll s '\'' "\\'") '\n' "\\n" ++ "'"
  | .int i, _, _ => toString i
  | .uint n, _, _ => toString n
  | .float f, _, _ => f.format
  | .bool b, _, _ => if b then "true" else "false"
  | .invalid, _, _ => "nil"
  | .other, _, _ => "nil"
  | .nilIface, _, _ => "nil"
  | .iface _, _, _ => "nil"
  | .seq _, _, _ => "nil"
  | .map _, _, _ => "nil"
  | .struct _, _, _ => "nil"

/-- The class `[A-Za-z_]`. -/
def isKeyStart (c : Char) : Bool :=
  ('A' ≤ c && c ≤ 'Z') || ('a' ≤ c && c ≤ 'z') || c == '_'

/-- The class `[A-Za-z0-9_]`. -/
def isKeyRest (c : Char) : Bool :=
  ('A' ≤ c && c ≤ 'Z') || ('a' ≤ c && c ≤ 'z') || ('0' ≤ c && c ≤ '9') || c == '_'

/-- The matcher `isValidKeyName` of the regular expression
`^[A-Za-z_][A-Za-z0-9_]*$` (in Go `$` is the end of the text). -/
def isValidKeyName (name : String) : Bool :=
  match name.data with
  | [] => false
  | c :: cs => isKeyStart c && cs.all isKeyRest

/-- The function `writeValue`: the buffer after the call. -/
def writeValue (result : String) (name : String) (value : String) (indentSize : Nat) : String :=
  let indent := Repeat " " (2 * indentSize)
  let result := result ++ indent
  let result :=
    if isValidKeyName name then result ++ name
    else result ++ ("['" ++ ReplaceAll name '\'' "\\'" ++ "']")
  result ++ (" = " ++ value ++ ",\n")

/-! ## The three container encoders -/

/-- The test on the first element in `reflectStringifyArray` that sets
`newline` to a line feed. -/
def firstIsMultiline (first : GoValue) : Bool :=
  first.Kind == Kind.Struct || first.Kind == Kind.Slice || first.Kind == Kind.String

/-- The body of `reflectStringifyArray` around its loop: `loop indent newline
result` runs the `for` loop on the buffer `result`. -/
def reflectStringifyArrayBody (loop : String → String → String → Result)
    (items : List GoValue) (indentSize : Nat) : Result :=
  match items with
  | [] => ("\x7b\x7d", none)
  | first :: _ =>
    let result := "\x7b"
    let newline := if firstIsMultiline first then "\n" else " "
    let indent := if firstIsMultiline first then Repeat " " (2 * indentSize) else ""
    let result := result ++ newline
    match loop indent newline result with
    | (early, some err) => (early, some err)
    | (result, none) =>
      let result :=
        if newline ≠ " " then result ++ Repeat " " (2 * (indentSize - 1)) else result
      (result ++ "\x7d", none)

/-- The body of `reflectStringifyMap` around its loop. -/
def reflectStringifyMapBody (loop : String → Result)
    (entries : List (String × GoValue)) (indentSize : Nat) : Result :=
  if entries.length = 0 then ("\x7b\x7d", none)
  else
    match loop "\x7b\n" with
    | (early, some err) => (early, some err)
    | (result, none) => (result ++ (Repeat " " (2 * (indentSize - 1)) ++ "\x7d"), none)

/-- The body of `reflectStringifyStruct` around its loop. -/
def reflectStringifyStructBody (loop : String → Result) (indentSize : Nat) : Result :=
  match loop "\x7b\n" with
  | (early, some err) => (early, some err)
  | (result, none) => (result ++ (Repeat " " (2 * (indentSize - 1)) ++ "\x7d"), none)

mutual
/-- The `for` loop of `reflectStringifyArray` from element `i` on, `items`
being the elements not yet visited. -/
def arrayLoop : List GoValue → Nat → String → String → String → Result
  | [], _, _, _, result => (result, none)
  | item :: rest, indentSize, indent, newline, result =>
    match arrayItemString item indentSize with
    | (_, some err) => ("\x7b\x7d", some err)
    | (stringified, none) =>
      arrayLoop rest indentSize indent newline (result ++ (indent ++ stringified ++ "," ++ newline))
/-- The `switch item.Kind()` of `reflectStringifyArray`. -/
def arrayItemString : GoValue → Nat → Result
  | .seq items, indentSize =>
    reflectStringifyArrayBody (arrayLoop items (indentSize + 1)) items (indentSize + 1)
  | .struct fields, indentSize =>
    reflectStringifyStructBody (structLoop fields (indentSize + 1)) (indentSize + 1)
  | .invalid, _ => (valueString .invalid [] ⟨"", "", false, ""⟩, none)
  | .bool b, _ => (valueString (.bool b) [] ⟨"", "", false, ""⟩, none)
  | .int i, _ => (valueString (.int i) [] ⟨"", "", false, ""⟩, none)
  | .uint n, _ => (valueString (.uint n) [] ⟨"", "", false, ""⟩, none)
  | .float f, _ => (valueString (.float f) [] ⟨"", "", false, ""⟩, none)
  | .str s, _ => (valueString (.str s) [] ⟨"", "", false, ""⟩, none)
  | .other, _ => (valueString .other [] ⟨"", "", false, ""⟩, none)
  | .nilPtr, _ => (valueString .nilPtr [] ⟨"", "", false, ""⟩, none)
  | .ptr target, _ => (valueString (.ptr target) [] ⟨"", "", false, ""⟩, none)
  | .nilIface, _ => (valueString .nilIface [] ⟨"", "", false, ""⟩, none)
  | .iface dyn, _ => (valueString (.iface dyn) [] ⟨"", "", false, ""⟩, none)
  | .map entries, _ => (valueString (.map entries) [] ⟨"", "", false, ""⟩, none)
/-- The `for iter.Next()` loop of `reflectStringifyMap`. -/
def mapLoop : List (String × GoValue) → Nat → String → Result
  | [], _, result => (result, none)
  | (key, value) :: rest, indentSize, result =>
    match mapValueString value indentSize with
    | (_, some err) => (result, some err)
    | (strValue, none) => mapLoop rest indentSize (writeValue result key strValue indentSize)
/-- The `switch value.Kind()` of `reflectStringifyMap`. -/
def mapValueString : GoValue → Nat → Result
  | .struct fields, indentSize =>
    reflectStringifyStructBody (structLoop fields (indentSize + 1)) (indentSize + 1)
  | .seq items, indentSize =>
    reflectStringifyArrayBody (arrayLoop items (indentSize + 1)) items (indentSize + 1)
  | .map entries, indentSize =>
    reflectStringifyMapBody (mapLoop entries (indentSize + 1)) entries (indentSize + 1)
  | .invalid, _ => (valueString .invalid [] ⟨"", "", false, ""⟩, none)
  | .bool b, _ => (valueString (.bool b) [] ⟨"", "", false, ""⟩, none)
  | .int i, _ => (valueString (.int i) [] ⟨"", "", false, ""⟩, none)
  | .uint n, _ => (valueString (.uint n) [] ⟨"", "", false, ""⟩, none)
  | .float f, _ => (valueString (.float f) [] ⟨"", "", false, ""⟩, none)
  | .str s, _ => (valueString (.str s) [] ⟨"", "", false, ""⟩, none)
  | .other, _ => (valueString .other [] ⟨"", "", false, ""⟩, none)
  | .nilPtr, _ => (valueString .nilPtr [] ⟨"", "", false, ""⟩, none)
  | .ptr target, _ => (valueString (.ptr target) [] ⟨"", "", false, ""⟩, none)
  | .nilIface, _ => (valueString .nilIface [] ⟨"", "", false, ""⟩, none)
  | .iface dyn, _ => (valueString (.iface dyn) [] ⟨"", "", false, ""⟩, none)
/-- The `for` loop of `reflectStringifyStruct` over the fields not yet
visited. -/
def structLoop : List (StructField × GoValue) → Nat → String → Result
  | [], _, result => (result, none)
  | (structField, structValue) :: rest, indentSize, result =>
    if structField.PkgPath ≠ "" ∧ ¬ structField.Anonymous = true then
      structLoop rest indentSize result
    else if structField.luaTag = "-" then
      structLoop rest indentSize result
    else if (parseTag structField.luaTag).2.Contains "omitempty" && isEmptyValue structValue then
      structLoop rest indentSize result
    else
      match structValueString structValue indentSize (parseTag structField.luaTag).2 structField with
      | (_, some err) => (result, some err)
      | (strValue, none) =>
        structLoop rest indentSize
          (writeValue result (parseTag structField.luaTag).1 strValue indentSize)
/-- The pointer loop of `reflectStringifyStruct` (`structValue =
structValue.Elem()` until the value is no pointer or is nil) followed by its
`switch structValue.Kind()`. -/
def structValueString : GoValue → Nat → tagOptions → StructField → Result
  | .ptr target, indentSize, options, field => structValueString target indentSize options field
  | .struct fields, indentSize, _, _ =>
    reflectStringifyStructBody (structLoop fields (indentSize + 1)) (indentSize + 1)
  | .seq items, indentSize, _, _ =>
    reflectStringifyArrayBody (arrayLoop items (indentSize + 1)) items (indentSize + 1)
  | .map entries, indentSize, _, _ =>
    reflectStringifyMapBody (mapLoop entries (indentSize + 1)) entries (indentSize + 1)
  | .invalid, _, options, field => (valueString .invalid options field, none)
  | .bool b, _, options, field => (valueString (.bool b) options field, none)
  | .int i, _, options, field => (valueString (.int i) options field, none)
  | .uint n, _, options, field => (valueString (.uint n) options field, none)
  | .float f, _, options, field => (valueString (.float f) options field, none)
  | .str s, _, options, field => (valueString (.str s) options field, none)
  | .other, _, options, field => (valueString .other options field, none)
  | .nilPtr, _, options, field => (valueString .nilPtr options field, none)
  | .nilIface, _, options, field => (valueString .nilIface options field, none)
  | .iface dyn, _, options, field => (valueString (.iface dyn) options field, none)
end

/-- The function `reflectStringifyArray` on an array or slice with the elements
`items`. -/
def reflectStringifyArray (items : List GoValue) (indentSize : Nat) : Result :=
  reflectStringifyArrayBody (arrayLoop items indentSize) items indentSize

/-- The function `reflectStringifyMap` on a map with the entries `entries`. -/
def reflectStringifyMap (entries : List (String × GoValue)) (indentSize : Nat) : Result :=
  reflectStringifyMapBody (mapLoop entries indentSize) entries indentSize

/-- The function `reflectStringifyStruct` on a struct with the fields `fields`;
the buffer it returns is read with `String()` by every caller. -/
def reflectStringifyStruct (fields : List (StructField × GoValue)) (indentSize : Nat) : Result :=
  reflectStringifyStructBody (structLoop fields indentSize) indentSize

/-! ## The entry point -/

/-- The first loop of `Encode`: follow the pointers of the root; `none` when a
nil pointer is met (the early `return EmptyTable, nil`). -/
def derefRoot : GoValue → Option GoValue
  | .nilPtr => none
  | .ptr target => derefRoot target
  | .invalid => some .invalid
  | .bool b => some (.bool b)
  | .int i => some (.int i)
  | .uint n => some (.uint n)
  | .float f => some (.float f)
  | .str s => some (.str s)
  | .other => some .other
  | .nilIface => some .nilIface
  | .iface dyn => some (.iface dyn)
  | .seq items => some (.seq items)
  | .map entries => some (.map entries)
  | .struct fields => some (.struct fields)

/-- The function `Encode`. `values == nil` holds exactly for the root
`reflect.ValueOf(nil)`, whose kind is `Invalid`. -/
def Encode (values : GoValue) : Result :=
  match derefRoot values with
  | none => (EmptyTable, none)
  | some value =>
    if values.Kind = Kind.Invalid then (EmptyTable, none)
    else
      match value with
      | .seq items =>
        match reflectStringifyArray items 1 with
        | (_, some err) => (EmptyTable, some err)
        | (result, none) => ("return " ++ result, none)
      | .map entries =>
        match reflectStringifyMap entries 1 with
        | (_, some err) => (EmptyTable, some err)
        | (result, none) => ("return " ++ result, none)
      | .struct fields =>
        match reflectStringifyStruct fields 1 with
        | (_, some err) => (EmptyTable, some err)
        | (result, none) => ("return " ++ result, none)
      | .invalid => (EmptyTable, some (.expectsStruct Kind.Invalid))
      | .bool _ => (EmptyTable, some (.expectsStruct Kind.Bool))
      | .int _ => (EmptyTable, some (.expectsStruct Kind.Int))
      | .uint _ => (EmptyTable, some (.expectsStruct Kind.Uint))
      | .float _ => (EmptyTable, some (.expectsStruct Kind.Float))
      | .str _ => (EmptyTable, some (.expectsStruct Kind.String))
      | .other => (EmptyTable, some (.expectsStruct Kind.Other))
      | .nilPtr => (EmptyTable, some (.expectsStruct Kind.Ptr))
      | .ptr _ => (EmptyTable, some (.expectsStruct Kind.Ptr))
      | .nilIface => (EmptyTable, some (.expectsStruct Kind.Interface))
      | .iface _ => (EmptyTable, some (.expectsStruct Kind.Interface))

/-! ## Notions of the specification -/

/-- The value reached by following every pointer; a nil pointer is where the
chain ends in nothing. -/
def resolvePtr : GoValue → GoValue
  | .ptr target => resolvePtr target
  | .nilPtr => .nilPtr
  | .invalid => .invalid
  | .bool b => .bool b
  | .int i => .int i
  | .uint n => .uint n
  | .float f => .float f
  | .str s => .str s
  | .other => .other
  | .nilIface => .nilIface
  | .iface dyn => .iface dyn
  | .seq items => .seq items
  | .map entries => .map entries
  | .struct fields => .struct fields

/-- A Nil root: the absent value, or a chain of pointers that ends in a nil
pointer. -/
def rootIsNil (values : GoValue) : Bool :=
  values.Kind == Kind.Invalid || (resolvePtr values).Kind == Kind.Ptr

/-- A root that resolves to a Sequence, a Mapping or a Record. -/
def rootIsTable (values : GoValue) : Bool :=
  (resolvePtr values).Kind == Kind.Slice || (resolvePtr values).Kind == Kind.Map
    || (resolvePtr values).Kind == Kind.Struct

/-- What the specification says a character of a string scalar becomes: an
apostrophe is written backslash-apostrophe, a line feed backslash-n, every
other character itself. -/
def escapedChar (c : Char) : List Char :=
  if c = '\'' then ['\\', '\'']
  else if c = '\n' then ['\\', 'n']
  else [c]

/-- What the specification says a character of a quoted key becomes: an
apostrophe is preceded by a backslash, every other character is itself. -/
def escapedKeyChar (c : Char) : List Char :=
  if c = '\'' then ['\\', '\''] else [c]

/-- The grammar `[A-Za-z_][A-Za-z0-9_]*` of the specification, on the whole
name. -/
def IsIdentifier (name : String) : Prop :=
  ∃ c cs, name.data = c :: cs ∧ (c.isAlpha = true ∨ c = '_')
    ∧ ∀ d ∈ cs, d.isAlphanum = true ∨ d = '_'

/-- The texts of a list, one after the other. -/
def concat : List String → String
  | [] => ""
  | s :: rest => s ++ concat rest

/-- The text the loop of `reflectStringifyArray` writes for one element. -/
def itemText (n : Nat) (indent newline : String) (item : GoValue) : String :=
  indent ++ (arrayItemString item n).1 ++ "," ++ newline

/-- The line the loop of `reflectStringifyMap` writes for one entry. -/
def entryLine (n : Nat) (entry : String × GoValue) : String :=
  writeValue "" entry.1 (mapValueString entry.2 n).1 n

/-- The first `continue` of the loop of `reflectStringifyStruct`: the field has
a package path and is not embedded. -/
def fieldHidden (f : StructField) : Bool :=
  f.PkgPath != "" && !f.Anonymous

/-- The second `continue`: the tag is `-`. -/
def fieldDash (f : StructField) : Bool :=
  f.luaTag == "-"

/-- The third `continue`: the tag has the option `omitempty` and
`isEmptyValue` holds of the field as it stands. -/
def fieldOmitted (fv : StructField × GoValue) : Bool :=
  (parseTag fv.1.luaTag).2.Contains "omitempty" && isEmptyValue fv.2

/-- A field that reaches the `writeValue` of the loop. -/
def fieldEmitted (fv : StructField × GoValue) : Bool :=
  !fieldHidden fv.1 && !fieldDash fv.1 && !fieldOmitted fv

/-- The fields of a struct that are written, in the order of the loop. -/
def emittedFields (fields : List (StructField × GoValue)) : List (StructField × GoValue) :=
  fields.filter fieldEmitted

/-- The line the loop of `reflectStringifyStruct` writes for an emitted
field: the key is the name part of the tag. -/
def fieldLine (n : Nat) (fv : StructField × GoValue) : String :=
  writeValue "" (parseTag fv.1.luaTag).1
    (structValueString fv.2 n (parseTag fv.1.luaTag).2 fv.1).1 n

/-- The kinds of a first element for which the specification chooses the
multi-line layout: Record, Sequence, string scalar. -/
def kindIsMultiline (k : Kind) : Bool :=
  k == Kind.Struct || k == Kind.Slice || k == Kind.String

/-- A rendered sequence is laid out on several lines when a line feed follows
its opening brace. -/
def startsMultiline (text : String) : Bool :=
  text.data.take 2 == ['\x7b', '\n']

/-- The emptiness rule of the specification, on a value as it stands: a nil
reference or empty interface slot, a sequence, mapping or string of length
zero, a numeric zero, the boolean false. -/
def SpecEmpty (v : GoValue) : Prop :=
  v = .nilPtr ∨ v = .nilIface ∨ v = .seq [] ∨ v = .map [] ∨ v = .str "" ∨ v = .int 0
    ∨ v = .uint 0 ∨ (∃ negative, v = .float (.zero negative)) ∨ v = .bool false

/-- The override name of a tag as the specification reads it: the text of the
tag before its first comma. -/
def tagNamePart (tag : String) : String :=
  String.mk (tag.data.takeWhile (fun c => c != ','))

/-- The key token `writeValue` writes for a name: the name itself when it
matches the identifier grammar, the bracket-quoted escaped name otherwise. -/
def keyToken (name : String) : String :=
  if isValidKeyName name then name else "['" ++ ReplaceAll name '\'' "\\'" ++ "']"

/-- Whether every apostrophe of a text stands right after a backslash, `prev`
being the character before the text. -/
def apostrophesEscaped (prev : Char) : List Char → Bool
  | [] => true
  | c :: cs => (c != '\'' || prev == '\\') && apostrophesEscaped c cs

/-- A leaf that the specification classifies as Nil: what is reached when the
pointers are followed is a nil pointer or a value of an unsupported kind. -/
def leafIsNil (v : GoValue) : Bool :=
  (resolvePtr v).Kind == Kind.Ptr || (resolvePtr v).Kind == Kind.Other

/-- The decimal form of an integer scalar, signed or unsigned. -/
def decimalForm : GoValue → String
  | .int i => toString i
  | .uint n => toString n
  | _ => ""

/-! # Properties -/

/-! ## The tests of `encode_test.go`, run on the embedding -/

example : Encode (.seq [.int 1, .int 2, .int 3, .int 4, .int 5])
    = ("return \x7b 1, 2, 3, 4, 5, \x7d", none) := by decide

example : Encode (.seq [.str "a", .str "b'", .str "c"])
    = ("return \x7b\n  'a',\n  'b\\'',\n  'c',\n\x7d", none) := by decide

example : Encode (.struct [(⟨"Ints", "", false, "ints"⟩, .seq [.int 1, .int 2, .int 3])])
    = ("return \x7b\n  ints = \x7b 1, 2, 3, \x7d,\n\x7d", none) := by decide

example : Encode (.struct [(⟨"StringValue", "", false, "string_value"⟩, .str ""),
      (⟨"NumberValue", "", false, "int_value"⟩, .int 0),
      (⟨"BoolValue", "", false, "bool_value"⟩, .bool false),
      (⟨"FloatValue", "", false, "float_value"⟩, .float (.zero false))])
    = ("return \x7b\n  string_value = '',\n  int_value = 0,\n  bool_value = false,\n"
        ++ "  float_value = 0,\n\x7d", none) := by decide

example : Encode (.struct [(⟨"Tables", "", false, "tables"⟩, .seq [
      .struct [(⟨"Ints", "", false, "ints"⟩, .seq [.int 1, .int 2, .int 3])],
      .struct [(⟨"Ints", "", false, "ints"⟩, .seq [.int 4, .int 5, .int 6])]])])
    = ("return \x7b\n  tables = \x7b\n    \x7b\n      ints = \x7b 1, 2, 3, \x7d,\n    \x7d,\n"
        ++ "    \x7b\n      ints = \x7b 4, 5, 6, \x7d,\n    \x7d,\n  \x7d,\n\x7d", none) := by
  rfl

example : Encode (.map [("key", .struct [(⟨"Id", "", false, "id"⟩, .int 1)]),
      ("key with spaces", .struct [(⟨"Id", "", false, "id"⟩, .int 2)]),
      ("key-with-hyphens", .struct [(⟨"Id", "", false, "id"⟩, .int 3)])])
    = ("return \x7b\n  key = \x7b\n    id = 1,\n  \x7d,\n  ['key with spaces'] = \x7b\n    id = 2,\n"
        ++ "  \x7d,\n  ['key-with-hyphens'] = \x7b\n    id = 3,\n  \x7d,\n\x7d", none) := by
  rfl

/-! ## No container encoder returns an error -/

theorem arrayBody_no_error (loop : String → String → String → Result)
    (items : List GoValue) (n : Nat) (h : ∀ a b c, (loop a b c).2 = none) :
    (reflectStringifyArrayBody loop items n).2 = none := by
  unfold reflectStringifyArrayBody
  cases items with
  | nil => rfl
  | cons first rest =>
    simp only
    split
    · rename_i early err heq
      have := h (if firstIsMultiline first = true then Repeat " " (2 * n) else "")
        (if firstIsMultiline first = true then "\n" else " ")
        ("\x7b" ++ if firstIsMultiline first = true then "\n" else " ")
      rw [heq] at this
      exact absurd this (by simp)
    · rfl

theorem mapBody_no_error (loop : String → Result) (entries : List (String × GoValue))
    (n : Nat) (h : ∀ a, (loop a).2 = none) :
    (reflectStringifyMapBody loop entries n).2 = none := by
  unfold reflectStringifyMapBody
  split
  · rfl
  · split
    · rename_i early err heq
      have := h "\x7b\n"
      rw [heq] at this
      exact absurd this (by simp)
    · rfl

theorem structBody_no_error (loop : String → Result) (n : Nat)
    (h : ∀ a, (loop a).2 = none) :
    (reflectStringifyStructBody loop n).2 = none := by
  unfold reflectStringifyStructBody
  split
  · rename_i early err heq
    have := h "\x7b\n"
    rw [heq] at this
    exact absurd this (by simp)
  · rfl

mutual
theorem arrayLoop_no_error : ∀ (items : List GoValue) (n : Nat) (indent newline result : String),
    (arrayLoop items n indent newline result).2 = none
  | [], _, _, _, _ => rfl
  | item :: rest, n, indent, newline, result => by
    rw [arrayLoop]
    have h := arrayItemString_no_error item n
    split
    · rename_i heq
      rw [heq] at h
      exact absurd h (by simp)
    · exact arrayLoop_no_error rest n indent newline _
theorem arrayItemString_no_error : ∀ (item : GoValue) (n : Nat), (arrayItemString item n).2 = none
  | .seq items, n => by
    rw [arrayItemString]
    exact arrayBody_no_error _ _ _ (arrayLoop_no_error items (n + 1))
  | .struct fields, n => by
    rw [arrayItemString]
    exact structBody_no_error _ _ (structLoop_no_error fields (n + 1))
  | .invalid, _ | .bool _, _ | .int _, _ | .uint _, _ | .float _, _ | .str _, _ | .other, _
  | .nilPtr, _ | .ptr _, _ | .nilIface, _ | .iface _, _ | .map _, _ => by
    simp [arrayItemString]
theorem mapLoop_no_error : ∀ (entries : List (String × GoValue)) (n : Nat) (result : String),
    (mapLoop entries n result).2 = none
  | [], _, _ => rfl
  | (key, value) :: rest, n, result => by
    rw [mapLoop]
    have h := mapValueString_no_error value n
    split
    · rename_i heq
      rw [heq] at h
      exact absurd h (by simp)
    · exact mapLoop_no_error rest n _
theorem mapValueString_no_error : ∀ (value : GoValue) (n : Nat), (mapValueString value n).2 = none
  | .seq items, n => by
    rw [mapValueString]
    exact arrayBody_no_error _ _ _ (arrayLoop_no_error items (n + 1))
  | .struct fields, n => by
    rw [mapValueString]
    exact structBody_no_error _ _ (structLoop_no_error fields (n + 1))
  | .map entries, n => by
    rw [mapValueString]
    exact mapBody_no_error _ _ _ (mapLoop_no_error entries (n + 1))
  | .invalid, _ | .bool _, _ | .int _, _ | .uint _, _ | .float _, _ | .str _, _ | .other, _
  | .nilPtr, _ | .ptr _, _ | .nilIface, _ | .iface _, _ => by
    simp [mapValueString]
theorem structLoop_no_error : ∀ (fields : List (StructField × GoValue)) (n : Nat) (result : String),
    (structLoop fields n result).2 = none
  | [], _, _ => rfl
  | (structField, structValue) :: rest, n, result => by
    rw [structLoop]
    have h := structValueString_no_error structValue n (parseTag structField.luaTag).2 structField
    split
    · exact structLoop_no_error rest n result
    · split
      · exact structLoop_no_error rest n result
      · split
        · exact structLoop_no_error rest n result
        · split
          · rename_i heq
            rw [heq] at h
            exact absurd h (by simp)
          · exact structLoop_no_error rest n _
theorem structValueString_no_error : ∀ (value : GoValue) (n : Nat) (options : tagOptions)
    (field : StructField), (structValueString value n options field).2 = none
  | .ptr target, n, options, field => by
    rw [structValueString]
    exact structValueString_no_error target n options field
  | .seq items, n, _, _ => by
    rw [structValueString]
    exact arrayBody_no_error _ _ _ (arrayLoop_no_error items (n + 1))
  | .struct fields, n, _, _ => by
    rw [structValueString]
    exact structBody_no_error _ _ (structLoop_no_error fields (n + 1))
  | .map entries, n, _, _ => by
    rw [structValueString]
    exact mapBody_no_error _ _ _ (mapLoop_no_error entries (n + 1))
  | .invalid, _, _, _ | .bool _, _, _, _ | .int _, _, _, _ | .uint _, _, _, _ | .float _, _, _, _
  | .str _, _, _, _ | .other, _, _, _ | .nilPtr, _, _, _ | .nilIface, _, _, _ | .iface _, _, _, _ => by
    simp [structValueString]
end

theorem reflectStringifyArray_no_error (items : List GoValue) (n : Nat) :
    (reflectStringifyArray items n).2 = none :=
  arrayBody_no_error _ _ _ (arrayLoop_no_error items n)

theorem reflectStringifyMap_no_error (entries : List (String × GoValue)) (n : Nat) :
    (reflectStringifyMap entries n).2 = none :=
  mapBody_no_error _ _ _ (mapLoop_no_error entries n)

theorem reflectStringifyStruct_no_error (fields : List (StructField × GoValue)) (n : Nat) :
    (reflectStringifyStruct fields n).2 = none :=
  structBody_no_error _ _ (structLoop_no_error fields n)

/-! ## The root -/

theorem derefRoot_eq : ∀ v : GoValue,
    derefRoot v = if (resolvePtr v).Kind = Kind.Ptr then none else some (resolvePtr v)
  | .ptr target => by
    rw [derefRoot, resolvePtr]
    exact derefRoot_eq target
  | .nilPtr | .invalid | .bool _ | .int _ | .uint _ | .float _ | .str _ | .other | .nilIface
  | .iface _ | .seq _ | .map _ | .struct _ => by
    simp [derefRoot, resolvePtr, GoValue.Kind]

theorem pair_of_no_error (r : Result) (h : r.2 = none) : r = (r.1, none) := by
  cases r with
  | mk a b =>
    simp only at h
    rw [h]

/-- The result of `Encode` by cases on the root: the empty table for a Nil
root, the encoded table for a root that resolves to a container, the error for
every other root. -/
theorem Encode_eq (values : GoValue) :
    Encode values =
      if rootIsNil values = true then (EmptyTable, none)
      else
        match resolvePtr values with
        | .seq items => ("return " ++ (reflectStringifyArray items 1).1, none)
        | .map entries => ("return " ++ (reflectStringifyMap entries 1).1, none)
        | .struct fields => ("return " ++ (reflectStringifyStruct fields 1).1, none)
        | v => (EmptyTable, some (.expectsStruct v.Kind)) := by
  unfold Encode
  rw [derefRoot_eq]
  by_cases hp : (resolvePtr values).Kind = Kind.Ptr
  · have hn : rootIsNil values = true := by simp [rootIsNil, hp]
    simp [hp, hn]
  · by_cases hi : values.Kind = Kind.Invalid
    · have hn : rootIsNil values = true := by simp [rootIsNil, hi]
      simp [hp, hi, hn]
    · have hn : rootIsNil values = false := by simp [rootIsNil, hp, hi]
      simp only [hp, hi, hn, if_false, Bool.false_eq_true]
      cases hr : resolvePtr values with
      | seq items =>
        simp only
        rw [pair_of_no_error _ (reflectStringifyArray_no_error items 1)]
      | map entries =>
        simp only
        rw [pair_of_no_error _ (reflectStringifyMap_no_error entries 1)]
      | struct fields =>
        simp only
        rw [pair_of_no_error _ (reflectStringifyStruct_no_error fields 1)]
      | nilPtr => rw [hr] at hp; exact absurd rfl hp
      | ptr t => rw [hr] at hp; exact absurd rfl hp
      | _ => rfl

/-! ## Errors and empty roots (C1, C2, C3) -/

/-- C1: `Encode` returns an error exactly when the root, after every pointer
is followed, is neither Nil nor a Sequence, Mapping or Record; and none of the
three container encoders returns an error, whatever is nested in the container
and at whatever depth. -/
theorem Encode_error_iff_unsupported_root :
    (∀ values : GoValue,
      (Encode values).2 ≠ none ↔ (rootIsNil values = false ∧ rootIsTable values = false))
    ∧ (∀ (items : List GoValue) (n : Nat), (reflectStringifyArray items n).2 = none)
    ∧ (∀ (entries : List (String × GoValue)) (n : Nat), (reflectStringifyMap entries n).2 = none)
    ∧ (∀ (fields : List (StructField × GoValue)) (n : Nat),
        (reflectStringifyStruct fields n).2 = none) := by
  refine ⟨?_, reflectStringifyArray_no_error, reflectStringifyMap_no_error,
    reflectStringifyStruct_no_error⟩
  intro values
  rw [Encode_eq]
  by_cases hn : rootIsNil values = true
  · simp [hn]
  · have hn' : rootIsNil values = false := by simpa using hn
    simp only [hn', Bool.false_eq_true, if_false, true_and]
    unfold rootIsTable
    cases resolvePtr values <;> simp [GoValue.Kind]

/-- C2: whenever `Encode` returns an error, the text it returns with the error
is `return {}`. -/
theorem Encode_error_text (values : GoValue) (h : (Encode values).2 ≠ none) :
    (Encode values).1 = "return \x7b\x7d" := by
  rw [Encode_eq] at h ⊢
  by_cases hn : rootIsNil values = true
  · simp [hn] at h
  · have hn' : rootIsNil values = false := by simpa using hn
    simp only [hn', Bool.false_eq_true, if_false] at h ⊢
    revert h
    cases resolvePtr values <;> simp [EmptyTable]

theorem Encode_error_text_witness :
    (Encode (.str "x")).2 ≠ none ∧ (Encode (.str "x")).1 = "return \x7b\x7d" :=
  ⟨by decide, Encode_error_text (.str "x") (by decide)⟩

/-- C3: a Nil root (the absent value, or pointers ending in a nil pointer), a
root that is an empty Sequence and a root that is an empty Mapping are each
encoded as `return {}`, without an error. -/
theorem Encode_empty_root (values : GoValue)
    (h : rootIsNil values = true ∨ resolvePtr values = .seq [] ∨ resolvePtr values = .map []) :
    Encode values = ("return \x7b\x7d", none) := by
  rw [Encode_eq]
  by_cases hn : rootIsNil values = true
  · simp [hn, EmptyTable]
  · have hn' : rootIsNil values = false := by simpa using hn
    simp only [hn', Bool.false_eq_true, if_false]
    rcases h with h | h | h
    · exact absurd h hn
    · rw [h]; rfl
    · rw [h]; rfl

theorem Encode_empty_root_witness :
    (rootIsNil (.ptr (.ptr .nilPtr)) = true ∨ resolvePtr (.ptr (.ptr .nilPtr)) = .seq []
        ∨ resolvePtr (.ptr (.ptr .nilPtr)) = .map [])
      ∧ Encode (.ptr (.ptr .nilPtr)) = ("return \x7b\x7d", none) :=
  ⟨Or.inl rfl, Encode_empty_root (.ptr (.ptr .nilPtr)) (Or.inl rfl)⟩

/-! ## Strings and keys (C4, C5) -/

theorem replaceChars_append (old : Char) (new : List Char) (xs ys : List Char) :
    replaceChars old new (xs ++ ys) = replaceChars old new xs ++ replaceChars old new ys := by
  induction xs with
  | nil => rfl
  | cons c cs ih => simp [replaceChars, ih]

theorem replaceChars_eq_flatMap (old : Char) (new : List Char) (xs : List Char) :
    replaceChars old new xs = xs.flatMap (fun c => if c = old then new else [c]) := by
  induction xs with
  | nil => rfl
  | cons c cs ih => simp [replaceChars, ih]

theorem replaceChars_twice (xs : List Char) :
    replaceChars '\n' ['\\', 'n'] (replaceChars '\'' ['\\', '\''] xs) = xs.flatMap escapedChar := by
  induction xs with
  | nil => rfl
  | cons c cs ih =>
    rw [replaceChars, replaceChars_append, ih, List.flatMap_cons]
    congr 1
    unfold escapedChar
    by_cases h1 : c = '\''
    · subst h1; decide
    · by_cases h2 : c = '\n'
      · subst h2; decide
      · simp [h1, h2, replaceChars]

theorem isKeyStart_iff (c : Char) : isKeyStart c = true ↔ (c.isAlpha = true ∨ c = '_') := by
  simp [isKeyStart, Char.isAlpha, Char.isUpper, Char.isLower, Char.le_def]

theorem isKeyRest_iff (c : Char) : isKeyRest c = true ↔ (c.isAlphanum = true ∨ c = '_') := by
  simp only [isKeyRest, Char.isAlphanum, Char.isAlpha, Char.isUpper, Char.isLower, Char.isDigit,
    Char.le_def, Bool.or_eq_true, Bool.and_eq_true, decide_eq_true_eq, beq_iff_eq]
  constructor
  · rintro (((h | h) | h) | h)
    · exact Or.inl (Or.inl (Or.inl h))
    · exact Or.inl (Or.inl (Or.inr h))
    · exact Or.inl (Or.inr h)
    · exact Or.inr h
  · rintro (((h | h) | h) | h)
    · exact Or.inl (Or.inl (Or.inl h))
    · exact Or.inl (Or.inl (Or.inr h))
    · exact Or.inl (Or.inr h)
    · exact Or.inr h

theorem isValidKeyName_iff (name : String) : isValidKeyName name = true ↔ IsIdentifier name := by
  unfold isValidKeyName IsIdentifier
  cases hd : name.data with
  | nil => simp
  | cons c cs =>
    simp only [Bool.and_eq_true, List.all_eq_true, isKeyStart_iff, isKeyRest_iff]
    constructor
    · rintro ⟨h1, h2⟩
      exact ⟨c, cs, rfl, h1, h2⟩
    · rintro ⟨c', cs', heq, h1, h2⟩
      cases heq
      exact ⟨h1, h2⟩

/-- C4: the token of a string scalar is an apostrophe, then the characters of
the string in order, each apostrophe written backslash-apostrophe, each line
feed written backslash-n and every other character unchanged, then an
apostrophe. -/
theorem valueString_string (s : String) (options : tagOptions) (field : StructField) :
    valueString (.str s) options field = "'" ++ String.mk (s.data.flatMap escapedChar) ++ "'" := by
  have h : ReplaceAll (ReplaceAll s '\'' "\\'") '\n' "\\n" = String.mk (s.data.flatMap escapedChar) := by
    unfold ReplaceAll
    exact congrArg String.mk (replaceChars_twice s.data)
  rw [valueString, h]

/-- C5: `writeValue` writes the indentation, the key, ` = `, the value, a comma
and a line feed; a name that as a whole matches `[A-Za-z_][A-Za-z0-9_]*` is
written bare, every other name (the empty one too) between `['` and `']` with a
backslash before each apostrophe and nothing else changed. -/
theorem writeValue_key (result name value : String) (indentSize : Nat) :
    (IsIdentifier name →
      writeValue result name value indentSize
        = result ++ Repeat " " (2 * indentSize) ++ name ++ (" = " ++ value ++ ",\n"))
    ∧ (¬ IsIdentifier name →
      writeValue result name value indentSize
        = result ++ Repeat " " (2 * indentSize)
            ++ ("['" ++ String.mk (name.data.flatMap escapedKeyChar) ++ "']")
            ++ (" = " ++ value ++ ",\n"))
    ∧ ¬ IsIdentifier "" := by
  refine ⟨?_, ?_, ?_⟩
  · intro h
    have hv : isValidKeyName name = true := (isValidKeyName_iff name).2 h
    simp [writeValue, hv]
  rotate_left
  · rintro ⟨c, cs, h, _⟩
    exact absurd h (by simp)
  · intro h
    have hv : isValidKeyName name = false := by
      cases hb : isValidKeyName name with
      | false => rfl
      | true => exact absurd ((isValidKeyName_iff name).1 hb) h
    have he : ReplaceAll name '\'' "\\'" = String.mk (name.data.flatMap escapedKeyChar) := by
      unfold ReplaceAll
      exact congrArg String.mk (replaceChars_eq_flatMap _ _ _)
    simp [writeValue, hv, he]

/-! ## The loops as concatenations -/

theorem writeValue_append (result name value : String) (n : Nat) :
    writeValue result name value n = result ++ writeValue "" name value n := by
  unfold writeValue
  by_cases h : isValidKeyName name = true
  · simp [h, String.append_assoc]
  · simp [h, String.append_assoc]

theorem arrayLoop_eq (items : List GoValue) (n : Nat) (indent newline : String) :
    ∀ result : String, arrayLoop items n indent newline result
      = (result ++ concat (items.map (itemText n indent newline)), none) := by
  induction items with
  | nil => intro result; simp [arrayLoop, concat]
  | cons item rest ih =>
    intro result
    rw [arrayLoop, pair_of_no_error _ (arrayItemString_no_error item n)]
    simp only
    rw [ih]
    simp [concat, itemText, String.append_assoc]

theorem mapLoop_eq (entries : List (String × GoValue)) (n : Nat) :
    ∀ result : String, mapLoop entries n result
      = (result ++ concat (entries.map (entryLine n)), none) := by
  induction entries with
  | nil => intro result; simp [mapLoop, concat]
  | cons entry rest ih =>
    intro result
    obtain ⟨key, value⟩ := entry
    rw [mapLoop, pair_of_no_error _ (mapValueString_no_error value n)]
    simp only
    rw [ih, writeValue_append]
    simp [concat, entryLine, String.append_assoc]

theorem structLoop_eq (fields : List (StructField × GoValue)) (n : Nat) :
    ∀ result : String, structLoop fields n result
      = (result ++ concat ((emittedFields fields).map (fieldLine n)), none) := by
  induction fields with
  | nil => intro result; simp [structLoop, emittedFields, concat]
  | cons fv rest ih =>
    intro result
    obtain ⟨f, v⟩ := fv
    rw [structLoop]
    by_cases h1 : f.PkgPath ≠ "" ∧ ¬ f.Anonymous = true
    · have e : fieldEmitted (f, v) = false := by
        simp [fieldEmitted, fieldHidden, h1.1, h1.2]
      rw [if_pos h1, ih]
      simp [emittedFields, List.filter_cons, e]
    · have e1 : fieldHidden f = false := by
        simp only [fieldHidden, Bool.and_eq_false_iff, bne_eq_false_iff_eq,
          Bool.not_eq_false_eq_eq_true] 
        by_cases hp : f.PkgPath = ""
        · exact Or.inl hp
        · right
          by_contra hc
          exact h1 ⟨hp, hc⟩
      rw [if_neg h1]
      by_cases h2 : f.luaTag = "-"
      · have e : fieldEmitted (f, v) = false := by simp [fieldEmitted, fieldDash, h2]
        rw [if_pos h2, ih]
        simp [emittedFields, List.filter_cons, e]
      · have e2 : fieldDash f = false := by simp [fieldDash, h2]
        rw [if_neg h2]
        by_cases h3 : ((parseTag f.luaTag).2.Contains "omitempty" && isEmptyValue v) = true
        · have e : fieldEmitted (f, v) = false := by simp [fieldEmitted, fieldOmitted, h3]
          rw [if_pos h3, ih]
          simp [emittedFields, List.filter_cons, e]
        · have e3 : fieldOmitted (f, v) = false := by simpa [fieldOmitted] using h3
          have e : fieldEmitted (f, v) = true := by simp [fieldEmitted, e1, e2, e3]
          rw [if_neg h3, pair_of_no_error _ (structValueString_no_error v n _ f)]
          simp only
          rw [ih, writeValue_append]
          simp [emittedFields, List.filter_cons, e, concat, fieldLine, String.append_assoc]

theorem reflectStringifyStruct_eq (fields : List (StructField × GoValue)) (n : Nat) :
    reflectStringifyStruct fields n
      = ("\x7b\n" ++ concat ((emittedFields fields).map (fieldLine n))
          ++ (Repeat " " (2 * (n - 1)) ++ "\x7d"), none) := by
  unfold reflectStringifyStruct reflectStringifyStructBody
  rw [structLoop_eq]

theorem reflectStringifyMap_eq (entry : String × GoValue) (rest : List (String × GoValue))
    (n : Nat) :
    reflectStringifyMap (entry :: rest) n
      = ("\x7b\n" ++ concat ((entry :: rest).map (entryLine n))
          ++ (Repeat " " (2 * (n - 1)) ++ "\x7d"), none) := by
  unfold reflectStringifyMap reflectStringifyMapBody
  rw [mapLoop_eq]
  simp

/-! ## Mapping order (C6) -/

/-- C6: the entries of a mapping are written in the order the map is
enumerated, not in key order: the mapping with the keys `key` and
`key with spaces` gives one text when `key` is enumerated first and another
text when `key with spaces` is. -/
theorem Encode_map_follows_enumeration :
    Encode (.map [("key", .str "value"), ("key with spaces", .str "value")])
      = ("return \x7b\n  key = 'value',\n  ['key with spaces'] = 'value',\n\x7d", none)
    ∧ Encode (.map [("key with spaces", .str "value"), ("key", .str "value")])
      = ("return \x7b\n  ['key with spaces'] = 'value',\n  key = 'value',\n\x7d", none) := by
  constructor <;> rfl

/-! ## Sequence layout (C7) -/

theorem reflectStringifyArray_eq (first : GoValue) (rest : List GoValue) (n : Nat) :
    reflectStringifyArray (first :: rest) n
      = (if kindIsMultiline first.Kind = true then
          "\x7b\n" ++ concat ((first :: rest).map (itemText n (Repeat " " (2 * n)) "\n"))
            ++ Repeat " " (2 * (n - 1)) ++ "\x7d"
        else
          "\x7b " ++ concat ((first :: rest).map (itemText n "" " ")) ++ "\x7d", none) := by
  unfold reflectStringifyArray reflectStringifyArrayBody
  simp only [arrayLoop_eq]
  by_cases h : firstIsMultiline first = true
  · have hk : kindIsMultiline first.Kind = true := h
    simp [h, hk, String.append_assoc]
  · have hk : ¬ kindIsMultiline first.Kind = true := h
    simp [h, hk, String.append_assoc]

theorem startsMultiline_open_lf (t : String) : startsMultiline ("\x7b\n" ++ t) = true := by
  simp [startsMultiline, String.data_append]

theorem startsMultiline_open_space (t : String) : startsMultiline ("\x7b " ++ t) = false := by
  simp [startsMultiline, String.data_append]

theorem reflectStringifyArray_starts (first : GoValue) (rest : List GoValue) (n : Nat) :
    startsMultiline (reflectStringifyArray (first :: rest) n).1 = kindIsMultiline first.Kind := by
  rw [reflectStringifyArray_eq]
  by_cases hk : kindIsMultiline first.Kind = true
  · simp only [hk, if_true, String.append_assoc]
    exact startsMultiline_open_lf _
  · have hk' : kindIsMultiline first.Kind = false := by simpa using hk
    simp only [hk', Bool.false_eq_true, if_false, String.append_assoc]
    exact startsMultiline_open_space _

/-- C7 as stated fails on its own example: a Go sequence that holds `1` and
`"a"` is a slice of interface type, its elements have the kind `Interface`, and
it is written on one line as `{ nil, nil, }`, not as `{ 1, 'a', }`. -/
theorem mixed_sequence_written_as_nil :
    Encode (.seq [.iface (.int 1), .iface (.str "a")]) = ("return \x7b nil, nil, \x7d", none)
    ∧ Encode (.seq [.iface (.int 1), .iface (.str "a")]) ≠ ("return \x7b 1, 'a', \x7d", none) := by
  constructor
  · rfl
  · decide

/-- C7, amended: the layout of a non-empty sequence depends only on the kind
of its first element as `reflect` reports it. When that kind is Record,
Sequence or string, the text is the opening brace, a line feed, every element
on an indented line of its own and the closing brace; for every other kind it
is the one-line form. Whether the text is multi-line is the same for two
sequences whose first elements have the same kind, and the sequence of `1` and
`"a"` is written on one line, as `{ nil, nil, }`. -/
theorem reflectStringifyArray_layout (first : GoValue) (rest : List GoValue) (n : Nat) :
    reflectStringifyArray (first :: rest) n
      = (if kindIsMultiline first.Kind = true then
          "\x7b\n" ++ concat ((first :: rest).map (itemText n (Repeat " " (2 * n)) "\n"))
            ++ Repeat " " (2 * (n - 1)) ++ "\x7d"
        else
          "\x7b " ++ concat ((first :: rest).map (itemText n "" " ")) ++ "\x7d", none)
    ∧ startsMultiline (reflectStringifyArray (first :: rest) n).1 = kindIsMultiline first.Kind
    ∧ (∀ (first2 : GoValue) (rest2 : List GoValue) (n2 : Nat), first2.Kind = first.Kind →
        startsMultiline (reflectStringifyArray (first2 :: rest2) n2).1
          = startsMultiline (reflectStringifyArray (first :: rest) n).1)
    ∧ reflectStringifyArray [.iface (.int 1), .iface (.str "a")] 1
      = ("\x7b nil, nil, \x7d", none) := by
  refine ⟨reflectStringifyArray_eq first rest n, reflectStringifyArray_starts first rest n, ?_, rfl⟩
  intro first2 rest2 n2 hk
  rw [reflectStringifyArray_starts, reflectStringifyArray_starts, hk]

/-! ## Record fields (C8, C9, C10) -/

theorem emittedFields_filter_visible (fields : List (StructField × GoValue)) :
    emittedFields (fields.filter (fun fv => !fieldHidden fv.1 && !fieldDash fv.1))
      = emittedFields fields := by
  unfold emittedFields
  rw [List.filter_filter]
  congr 1
  funext fv
  unfold fieldEmitted
  cases fieldHidden fv.1 <;> cases fieldDash fv.1 <;> simp

/-- C8 as stated fails on an embedded field: the field `inner` is not exported
(its package path is not empty), yet it is written. -/
theorem unexported_embedded_field_written :
    (⟨"inner", "main", true, "inner"⟩ : StructField).PkgPath ≠ ""
    ∧ Encode
        (.struct [(⟨"inner", "main", true, "inner"⟩, .struct [(⟨"X", "", false, "x"⟩, .int 1)])])
      = ("return \x7b\n  inner = \x7b\n    x = 1,\n  \x7d,\n\x7d", none) := by
  constructor
  · decide
  · rfl

/-- C8, amended: the entries of a record are the lines of its emitted fields,
which are a subsequence of the declared fields in declaration order; a field
that is not exported and not embedded, or whose tag is `-`, is never among
them, and the text is the same as that of the record without those fields. -/
theorem reflectStringifyStruct_fields (fields : List (StructField × GoValue)) (n : Nat) :
    reflectStringifyStruct fields n
      = ("\x7b\n" ++ concat ((emittedFields fields).map (fieldLine n))
          ++ (Repeat " " (2 * (n - 1)) ++ "\x7d"), none)
    ∧ (emittedFields fields).Sublist fields
    ∧ (∀ fv ∈ emittedFields fields,
        ¬ (fv.1.PkgPath ≠ "" ∧ fv.1.Anonymous = false) ∧ fv.1.luaTag ≠ "-")
    ∧ reflectStringifyStruct fields n
      = reflectStringifyStruct
          (fields.filter (fun fv => !fieldHidden fv.1 && !fieldDash fv.1)) n := by
  refine ⟨reflectStringifyStruct_eq fields n, List.filter_sublist _, ?_, ?_⟩
  · intro fv hfv
    have h := (List.mem_filter.1 hfv).2
    simp only [fieldEmitted, fieldHidden, fieldDash, Bool.and_eq_true, Bool.not_eq_true',
      Bool.and_eq_false_iff, bne_eq_false_iff_eq, Bool.not_eq_false_eq_eq_true,
      beq_eq_false_iff_ne, ne_eq] at h
    refine ⟨?_, h.1.2⟩
    rintro ⟨hp, ha⟩
    rcases h.1.1 with h1 | h1
    · exact hp h1
    · rw [ha] at h1; exact absurd h1 (by decide)
  · rw [reflectStringifyStruct_eq, reflectStringifyStruct_eq, emittedFields_filter_visible]

theorem string_length_zero (s : String) : (s.length == 0) = true ↔ s = "" := by
  constructor
  · intro h
    have h0 : s.length = 0 := beq_iff_eq.1 h
    cases s with
    | mk data =>
      have h1 : data.length = 0 := h0
      rw [List.length_eq_zero.1 h1]
  · intro h
    subst h
    rfl

theorem isEmptyValue_iff : ∀ v : GoValue, isEmptyValue v = true ↔ SpecEmpty v
  | .seq items => by
    cases items <;> simp [isEmptyValue, SpecEmpty]
  | .map entries => by
    cases entries <;> simp [isEmptyValue, SpecEmpty]
  | .str s => by
    simp only [isEmptyValue, SpecEmpty, string_length_zero]
    simp
  | .bool b => by cases b <;> simp [isEmptyValue, SpecEmpty]
  | .int i => by simp [isEmptyValue, SpecEmpty]
  | .uint n => by simp [isEmptyValue, SpecEmpty]
  | .float (.zero negative) => by simp [isEmptyValue, SpecEmpty, GoFloat.isZero]
  | .float (.nonzero text) => by simp [isEmptyValue, SpecEmpty, GoFloat.isZero]
  | .nilIface => by simp [isEmptyValue, SpecEmpty]
  | .iface _ => by simp [isEmptyValue, SpecEmpty]
  | .nilPtr => by simp [isEmptyValue, SpecEmpty]
  | .ptr _ => by simp [isEmptyValue, SpecEmpty]
  | .invalid => by simp [isEmptyValue, SpecEmpty]
  | .other => by simp [isEmptyValue, SpecEmpty]
  | .struct _ => by simp [isEmptyValue, SpecEmpty]

/-- C9 as stated fails on a reference to an empty value: the field `p` is
flagged `omitempty` and its resolved value, the integer zero, is empty, yet the
field is written. -/
theorem omitempty_pointer_to_zero_written :
    SpecEmpty (resolvePtr (.ptr (.int 0)))
    ∧ Encode (.struct [(⟨"P", "", false, "p,omitempty"⟩, .ptr (.int 0))])
      = ("return \x7b\n  p = 0,\n\x7d", none) := by
  constructor
  · exact Or.inr (Or.inr (Or.inr (Or.inr (Or.inr (Or.inl rfl)))))
  · rfl

/-- C9, amended: a visible, non-skipped field flagged `omitempty` is written
exactly when its own value, before any reference is followed, is not empty;
empty means a nil reference, a sequence, mapping or string of length zero, a
numeric zero or the boolean false, so a record and a non-nil reference are
never empty. -/
theorem omitempty_field_written_iff (fields : List (StructField × GoValue)) (n : Nat)
    (fv : StructField × GoValue) (hmem : fv ∈ fields)
    (hvisible : fieldHidden fv.1 = false) (hdash : fieldDash fv.1 = false)
    (hflag : (parseTag fv.1.luaTag).2.Contains "omitempty" = true) :
    reflectStringifyStruct fields n
      = ("\x7b\n" ++ concat ((emittedFields fields).map (fieldLine n))
          ++ (Repeat " " (2 * (n - 1)) ++ "\x7d"), none)
    ∧ (fv ∈ emittedFields fields ↔ ¬ SpecEmpty fv.2)
    ∧ (∀ target, ¬ SpecEmpty (.ptr target)) ∧ (∀ fs, ¬ SpecEmpty (.struct fs)) := by
  refine ⟨reflectStringifyStruct_eq fields n, ?_, ?_, ?_⟩
  · rw [← isEmptyValue_iff]
    unfold emittedFields
    rw [List.mem_filter]
    simp [fieldEmitted, fieldOmitted, hvisible, hdash, hflag, hmem]
  · intro target h
    exact absurd ((isEmptyValue_iff _).2 h) (by simp [isEmptyValue])
  · intro fs h
    exact absurd ((isEmptyValue_iff _).2 h) (by simp [isEmptyValue])

theorem omitempty_field_written_iff_witness :
    (⟨"P", "", false, "p,omitempty"⟩, GoValue.ptr (.int 0))
        ∈ emittedFields [(⟨"P", "", false, "p,omitempty"⟩, GoValue.ptr (.int 0))]
      ↔ ¬ SpecEmpty (GoValue.ptr (.int 0)) :=
  (omitempty_field_written_iff [(⟨"P", "", false, "p,omitempty"⟩, GoValue.ptr (.int 0))] 1
    (⟨"P", "", false, "p,omitempty"⟩, GoValue.ptr (.int 0)) (List.Mem.head _) rfl rfl rfl).2.1

theorem splitChars_head (sep : Char) : ∀ cs : List Char,
    ∃ pieces, splitChars sep cs = cs.takeWhile (fun c => c != sep) :: pieces
  | [] => ⟨[], rfl⟩
  | c :: cs => by
    obtain ⟨pieces, h⟩ := splitChars_head sep cs
    by_cases hc : c = sep
    · exact ⟨splitChars sep cs, by simp [splitChars, hc]⟩
    · exact ⟨pieces, by simp [splitChars, hc, h]⟩

theorem parseTag_name (tag : String) : (parseTag tag).1 = tagNamePart tag := by
  obtain ⟨pieces, h⟩ := splitChars_head ',' tag.data
  simp [parseTag, Split, h, tagNamePart]

/-- C10 as stated fails on a field with no override: the field declared as
`Id` is written under the empty key, with no tag and with the tag
`,omitempty` alike, and not under its declared name. -/
theorem untagged_field_key_is_empty :
    Encode (.struct [(⟨"Id", "", false, ""⟩, .int 1)])
      = ("return \x7b\n  [''] = 1,\n\x7d", none)
    ∧ Encode (.struct [(⟨"Id", "", false, ",omitempty"⟩, .int 1)])
      = ("return \x7b\n  [''] = 1,\n\x7d", none)
    ∧ Encode (.struct [(⟨"Id", "", false, ""⟩, .int 1)])
      ≠ ("return \x7b\n  Id = 1,\n\x7d", none) := by
  refine ⟨rfl, rfl, ?_⟩
  decide

/-- C10, amended: every emitted field is written under the name part of its
`lua` tag, the text of the tag before its first comma; a field with no tag or
with an empty name part is written under the empty name, as `['']`. The
declared name of the field is not read. -/
theorem field_key_is_tag_name (fields : List (StructField × GoValue)) (n : Nat) :
    reflectStringifyStruct fields n
      = ("\x7b\n" ++ concat ((emittedFields fields).map (fun fv =>
            writeValue "" (tagNamePart fv.1.luaTag)
              (structValueString fv.2 n (parseTag fv.1.luaTag).2 fv.1).1 n))
          ++ (Repeat " " (2 * (n - 1)) ++ "\x7d"), none)
    ∧ tagNamePart "" = "" ∧ tagNamePart ",omitempty" = ""
    ∧ (∀ (result value : String) (m : Nat),
        writeValue result "" value m
          = result ++ Repeat " " (2 * m) ++ "['']" ++ (" = " ++ value ++ ",\n")) := by
  refine ⟨?_, rfl, rfl, ?_⟩
  · rw [reflectStringifyStruct_eq]
    have h : fieldLine n = (fun fv : StructField × GoValue =>
        writeValue "" (tagNamePart fv.1.luaTag)
          (structValueString fv.2 n (parseTag fv.1.luaTag).2 fv.1).1 n) := by
      funext fv
      rw [fieldLine, parseTag_name]
    rw [h]
  · intro result value m
    rfl

/-! ## References and mappings inside sequences and mappings (C11, C12) -/

/-- C11: a reference is followed before the kind is looked at in a record
field only. As an element of a sequence or a value of a mapping, a reference to
a record is written `nil`, and a sequence of references to strings is laid out
on one line, while the record and the strings themselves are written in full
and on several lines; the same reference in a record field is written as the
record it points to. -/
theorem reference_in_sequence_not_resolved :
    Encode (.seq [.ptr (.struct [(⟨"Id", "", false, "id"⟩, .int 1)])])
      = ("return \x7b nil, \x7d", none)
    ∧ Encode (.seq [.struct [(⟨"Id", "", false, "id"⟩, .int 1)]])
      = ("return \x7b\n  \x7b\n    id = 1,\n  \x7d,\n\x7d", none)
    ∧ Encode (.seq [.ptr (.str "a")]) = ("return \x7b 'a', \x7d", none)
    ∧ Encode (.seq [.str "a"]) = ("return \x7b\n  'a',\n\x7d", none)
    ∧ Encode (.map [("k", .ptr (.struct [(⟨"Id", "", false, "id"⟩, .int 1)]))])
      = ("return \x7b\n  k = nil,\n\x7d", none)
    ∧ Encode (.map [("k", .struct [(⟨"Id", "", false, "id"⟩, .int 1)])])
      = ("return \x7b\n  k = \x7b\n    id = 1,\n  \x7d,\n\x7d", none)
    ∧ Encode (.struct [(⟨"K", "", false, "k"⟩,
        .ptr (.struct [(⟨"Id", "", false, "id"⟩, .int 1)]))])
      = ("return \x7b\n  k = \x7b\n    id = 1,\n  \x7d,\n\x7d", none) := by
  refine ⟨rfl, rfl, rfl, rfl, rfl, rfl, rfl⟩

/-- C12: the `switch` on an element of a sequence has no case for a mapping: a
non-empty mapping that is an element of a sequence is written `nil`, while the
same mapping as a value of a mapping or as a record field is written as its
multi-line table. -/
theorem mapping_in_sequence_written_as_nil :
    Encode (.seq [.map [("a", .int 1)]]) = ("return \x7b nil, \x7d", none)
    ∧ Encode (.map [("k", .map [("a", .int 1)])])
      = ("return \x7b\n  k = \x7b\n    a = 1,\n  \x7d,\n\x7d", none)
    ∧ Encode (.struct [(⟨"K", "", false, "k"⟩, .map [("a", .int 1)])])
      = ("return \x7b\n  k = \x7b\n    a = 1,\n  \x7d,\n\x7d", none) := by
  refine ⟨rfl, rfl, rfl⟩

/-! ## Strings that share a token (C18) -/

/-- C18: the string that is one line feed and the string that is a backslash
followed by `n` have the same token, a backslash and `n` between apostrophes:
the backslash is not escaped, so the formatting of strings is not injective. -/
theorem valueString_not_injective (options : tagOptions) (field : StructField) :
    GoValue.str "\n" ≠ GoValue.str "\\n"
    ∧ valueString (.str "\n") options field = "'\\n'"
    ∧ valueString (.str "\\n") options field = "'\\n'" := by
  refine ⟨?_, rfl, rfl⟩
  intro h
  injection h with h
  exact absurd h (by decide)

/-! ## The text of records, mappings and multi-line sequences (C13, C15) -/

theorem writeValue_eq_keyToken (name value : String) (n : Nat) :
    writeValue "" name value n
      = Repeat " " (2 * n) ++ keyToken name ++ " = " ++ value ++ ",\n" := by
  unfold writeValue keyToken
  by_cases h : isValidKeyName name = true
  · simp [h, String.append_assoc]
  · simp only [h, Bool.false_eq_true, if_false, String.append_assoc, String.empty_append]

theorem structValueString_container (n : Nat) (options : tagOptions) (field : StructField) :
    (∀ fs, structValueString (.struct fs) n options field = reflectStringifyStruct fs (n + 1))
    ∧ (∀ its, structValueString (.seq its) n options field = reflectStringifyArray its (n + 1))
    ∧ (∀ es, structValueString (.map es) n options field = reflectStringifyMap es (n + 1)) := by
  refine ⟨?_, ?_, ?_⟩ <;> intro x <;> rw [structValueString] <;> rfl

theorem mapValueString_container (n : Nat) :
    (∀ fs, mapValueString (.struct fs) n = reflectStringifyStruct fs (n + 1))
    ∧ (∀ its, mapValueString (.seq its) n = reflectStringifyArray its (n + 1))
    ∧ (∀ es, mapValueString (.map es) n = reflectStringifyMap es (n + 1)) := by
  refine ⟨?_, ?_, ?_⟩ <;> intro x <;> rw [mapValueString] <;> rfl

theorem arrayItemString_container (n : Nat) :
    (∀ fs, arrayItemString (.struct fs) n = reflectStringifyStruct fs (n + 1))
    ∧ (∀ its, arrayItemString (.seq its) n = reflectStringifyArray its (n + 1)) := by
  refine ⟨?_, ?_⟩ <;> intro x <;> rw [arrayItemString] <;> rfl

/-- C13: at depth `d` (that is `indentSize = d + 1`) a record and a non-empty
mapping are written as the opening brace and a line feed, then for every
emitted entry in order `2 (d + 1)` spaces, the key token, ` = `, the value of
the entry, a comma and a line feed, then `2 d` spaces and the closing brace.
A value that is a record, a sequence or a mapping is the text of that container
at depth `d + 1`, so its closing brace stands two spaces to the left of its own
entries. -/
theorem record_and_mapping_text (d : Nat) :
    (∀ fields : List (StructField × GoValue),
      reflectStringifyStruct fields (d + 1)
        = ("\x7b\n" ++ concat ((emittedFields fields).map (fun fv =>
              Repeat " " (2 * (d + 1)) ++ keyToken (parseTag fv.1.luaTag).1 ++ " = "
                ++ (structValueString fv.2 (d + 1) (parseTag fv.1.luaTag).2 fv.1).1 ++ ",\n"))
            ++ Repeat " " (2 * d) ++ "\x7d", none))
    ∧ (∀ (entry : String × GoValue) (rest : List (String × GoValue)),
      reflectStringifyMap (entry :: rest) (d + 1)
        = ("\x7b\n" ++ concat ((entry :: rest).map (fun e =>
              Repeat " " (2 * (d + 1)) ++ keyToken e.1 ++ " = "
                ++ (mapValueString e.2 (d + 1)).1 ++ ",\n"))
            ++ Repeat " " (2 * d) ++ "\x7d", none))
    ∧ (∀ (options : tagOptions) (field : StructField),
        (∀ fs, structValueString (.struct fs) (d + 1) options field
          = reflectStringifyStruct fs (d + 2))
        ∧ (∀ its, structValueString (.seq its) (d + 1) options field
          = reflectStringifyArray its (d + 2))
        ∧ (∀ es, structValueString (.map es) (d + 1) options field
          = reflectStringifyMap es (d + 2)))
    ∧ ((∀ fs, mapValueString (.struct fs) (d + 1) = reflectStringifyStruct fs (d + 2))
        ∧ (∀ its, mapValueString (.seq its) (d + 1) = reflectStringifyArray its (d + 2))
        ∧ (∀ es, mapValueString (.map es) (d + 1) = reflectStringifyMap es (d + 2))) := by
  refine ⟨?_, ?_, fun options field => structValueString_container (d + 1) options field,
    mapValueString_container (d + 1)⟩
  · intro fields
    rw [reflectStringifyStruct_eq]
    have h : fieldLine (d + 1) = (fun fv : StructField × GoValue =>
        Repeat " " (2 * (d + 1)) ++ keyToken (parseTag fv.1.luaTag).1 ++ " = "
          ++ (structValueString fv.2 (d + 1) (parseTag fv.1.luaTag).2 fv.1).1 ++ ",\n") := by
      funext fv
      rw [fieldLine, writeValue_eq_keyToken]
    rw [h]
    simp [String.append_assoc]
  · intro entry rest
    rw [reflectStringifyMap_eq]
    have h : entryLine (d + 1) = (fun e : String × GoValue =>
        Repeat " " (2 * (d + 1)) ++ keyToken e.1 ++ " = "
          ++ (mapValueString e.2 (d + 1)).1 ++ ",\n") := by
      funext e
      rw [entryLine, writeValue_eq_keyToken]
    rw [h]
    simp [String.append_assoc]

/-- C15: at depth `d` a non-empty sequence whose elements are all strings, all
records or all sequences is written as the opening brace and a line feed, then
for every element in order `2 (d + 1)` spaces, the element, a comma and a line
feed, then `2 d` spaces and the closing brace; there are as many element lines
as elements, and an element that is a record or a sequence is the text of that
container at depth `d + 1`. -/
theorem multiline_sequence_text (items : List GoValue) (d : Nat) (hne : items ≠ [])
    (hall : (∀ item ∈ items, item.Kind = Kind.String)
      ∨ (∀ item ∈ items, item.Kind = Kind.Struct)
      ∨ (∀ item ∈ items, item.Kind = Kind.Slice)) :
    reflectStringifyArray items (d + 1)
      = ("\x7b\n" ++ concat (items.map (fun item =>
            Repeat " " (2 * (d + 1)) ++ (arrayItemString item (d + 1)).1 ++ ",\n"))
          ++ Repeat " " (2 * d) ++ "\x7d", none)
    ∧ (items.map (fun item =>
          Repeat " " (2 * (d + 1)) ++ (arrayItemString item (d + 1)).1 ++ ",\n")).length
        = items.length
    ∧ (∀ s, arrayItemString (.str s) (d + 1)
        = (valueString (.str s) [] ⟨"", "", false, ""⟩, none))
    ∧ (∀ fs, arrayItemString (.struct fs) (d + 1) = reflectStringifyStruct fs (d + 2))
    ∧ (∀ its, arrayItemString (.seq its) (d + 1) = reflectStringifyArray its (d + 2)) := by
  refine ⟨?_, List.length_map _ _, fun s => by rw [arrayItemString],
    (arrayItemString_container (d + 1)).1, (arrayItemString_container (d + 1)).2⟩
  cases items with
  | nil => exact absurd rfl hne
  | cons first rest =>
    have hk : kindIsMultiline first.Kind = true := by
      rcases hall with h | h | h
      · rw [h first (List.mem_cons_self _ _)]; rfl
      · rw [h first (List.mem_cons_self _ _)]; rfl
      · rw [h first (List.mem_cons_self _ _)]; rfl
    have ht : itemText (d + 1) (Repeat " " (2 * (d + 1))) "\n" = (fun item =>
        Repeat " " (2 * (d + 1)) ++ (arrayItemString item (d + 1)).1 ++ ",\n") := by
      funext item
      simp [itemText, String.append_assoc]
    rw [reflectStringifyArray_eq]
    simp only [hk, if_true, ht, Nat.add_sub_cancel]

theorem multiline_sequence_text_witness :
    reflectStringifyArray [.str "a", .str "b'", .str "c"] 1
      = ("\x7b\n" ++ concat ([GoValue.str "a", .str "b'", .str "c"].map (fun item =>
            Repeat " " (2 * (0 + 1)) ++ (arrayItemString item (0 + 1)).1 ++ ",\n"))
          ++ Repeat " " (2 * 0) ++ "\x7d", none)
    ∧ reflectStringifyArray [.str "a", .str "b'", .str "c"] 1
      = ("\x7b\n  'a',\n  'b\\'',\n  'c',\n\x7d", none) :=
  ⟨(multiline_sequence_text [.str "a", .str "b'", .str "c"] 0 (by simp)
      (Or.inl (by intro item h; simp at h; rcases h with h | h | h <;> rw [h] <;> rfl))).1,
    rfl⟩

/-! ## Sequences of integers (C14) -/

theorem digitChar_ne_lf (d : Nat) (h : d < 10) : Nat.digitChar d ≠ '\n' := by
  interval_cases d <;> decide

theorem toDigitsCore_no_lf : ∀ (fuel n : Nat) (ds : List Char),
    '\n' ∉ ds → '\n' ∉ Nat.toDigitsCore 10 fuel n ds
  | 0, _, ds, h => by simpa [Nat.toDigitsCore] using h
  | fuel + 1, n, ds, h => by
    have hd : '\n' ∉ Nat.digitChar (n % 10) :: ds := by
      intro hm
      rcases List.mem_cons.1 hm with h1 | h1
      · exact digitChar_ne_lf _ (Nat.mod_lt n (by decide)) h1.symm
      · exact h h1
    rw [Nat.toDigitsCore]
    by_cases h0 : n / 10 = 0
    · simpa [h0] using hd
    · simp only [h0, if_false]
      exact toDigitsCore_no_lf fuel (n / 10) _ hd

theorem nat_decimal_no_lf (n : Nat) : '\n' ∉ (toString n).data := by
  show '\n' ∉ (Nat.toDigits 10 n)
  exact toDigitsCore_no_lf (n + 1) n [] (by simp)

theorem int_decimal_no_lf : ∀ i : Int, '\n' ∉ (toString i).data
  | Int.ofNat m => nat_decimal_no_lf m
  | Int.negSucc m => by
    show '\n' ∉ ("-" ++ toString (Nat.succ m)).data
    rw [String.data_append]
    intro h
    rcases List.mem_append.1 h with h1 | h1
    · exact absurd h1 (by decide)
    · exact nat_decimal_no_lf _ h1

theorem concat_no_lf : ∀ l : List String, (∀ s ∈ l, '\n' ∉ s.data) → '\n' ∉ (concat l).data
  | [], _ => by simp [concat]
  | s :: rest, h => by
    rw [concat, String.data_append]
    intro hm
    rcases List.mem_append.1 hm with h1 | h1
    · exact h s (List.mem_cons_self _ _) h1
    · exact concat_no_lf rest (fun t ht => h t (List.mem_cons_of_mem _ ht)) h1

theorem decimalForm_no_lf (item : GoValue) : '\n' ∉ (decimalForm item).data := by
  cases item <;> simp [decimalForm, nat_decimal_no_lf, int_decimal_no_lf]

theorem itemText_integer (n : Nat) (item : GoValue)
    (h : item.Kind = Kind.Int ∨ item.Kind = Kind.Uint) :
    itemText n "" " " item = decimalForm item ++ ", " := by
  cases item <;> simp [GoValue.Kind] at h
  · simp [itemText, arrayItemString, valueString, decimalForm, String.append_assoc]
  · simp [itemText, arrayItemString, valueString, decimalForm, String.append_assoc]

theorem reflectStringifyArray_integers (items : List GoValue) (n : Nat) (hne : items ≠ [])
    (hall : ∀ item ∈ items, item.Kind = Kind.Int ∨ item.Kind = Kind.Uint) :
    reflectStringifyArray items n
      = ("\x7b " ++ concat (items.map (fun item => decimalForm item ++ ", ")) ++ "\x7d", none) := by
  cases items with
  | nil => exact absurd rfl hne
  | cons first rest =>
    have hk : kindIsMultiline first.Kind = false := by
      rcases hall first (List.mem_cons_self _ _) with h | h <;> rw [h] <;> rfl
    have hm : (first :: rest).map (itemText n "" " ")
        = (first :: rest).map (fun item => decimalForm item ++ ", ") :=
      List.map_congr_left (fun item hi => itemText_integer n item (hall item hi))
    rw [reflectStringifyArray_eq]
    simp only [hk, Bool.false_eq_true, if_false, hm]

/-- C14: a non-empty sequence of integer scalars is written, whatever the
depth, as the opening brace and a space, then every element in order as its
decimal form followed by a comma and a space, then the closing brace; the text
has no line feed, and it is the text of the sequence at the root, in a record
field and as a value of a mapping. -/
theorem integer_sequence_text (items : List GoValue) (n : Nat) (hne : items ≠ [])
    (hall : ∀ item ∈ items, item.Kind = Kind.Int ∨ item.Kind = Kind.Uint) :
    reflectStringifyArray items n
      = ("\x7b " ++ concat (items.map (fun item => decimalForm item ++ ", ")) ++ "\x7d", none)
    ∧ '\n' ∉ (reflectStringifyArray items n).1.data
    ∧ Encode (.seq items)
      = ("return " ++ ("\x7b " ++ concat (items.map (fun item => decimalForm item ++ ", "))
          ++ "\x7d"), none)
    ∧ (∀ (options : tagOptions) (field : StructField),
        structValueString (.seq items) n options field
          = ("\x7b " ++ concat (items.map (fun item => decimalForm item ++ ", ")) ++ "\x7d", none))
    ∧ mapValueString (.seq items) n
      = ("\x7b " ++ concat (items.map (fun item => decimalForm item ++ ", ")) ++ "\x7d", none) := by
  have h := reflectStringifyArray_integers items
  refine ⟨h n hne hall, ?_, ?_, ?_, ?_⟩
  · rw [h n hne hall]
    simp only [String.data_append]
    intro hm
    rcases List.mem_append.1 hm with h1 | h1
    · rcases List.mem_append.1 h1 with h2 | h2
      · exact absurd h2 (by decide)
      · refine concat_no_lf _ ?_ h2
        intro t ht
        obtain ⟨item, _, rfl⟩ := List.mem_map.1 ht
        rw [String.data_append]
        intro hc
        rcases List.mem_append.1 hc with h3 | h3
        · exact decimalForm_no_lf item h3
        · exact absurd h3 (by decide)
    · exact absurd h1 (by decide)
  · rw [Encode_eq]
    have hn : rootIsNil (.seq items) = false := rfl
    simp only [hn, Bool.false_eq_true, if_false, resolvePtr]
    rw [h 1 hne hall]
  · intro options field
    rw [(structValueString_container n options field).2.1, h (n + 1) hne hall]
  · rw [(mapValueString_container n).2.1, h (n + 1) hne hall]

theorem integer_sequence_text_witness :
    Encode (.seq [.int 1, .int 2, .int 3, .int 4, .int 5])
      = ("return " ++ ("\x7b " ++ concat ([GoValue.int 1, .int 2, .int 3, .int 4, .int 5].map
          (fun item => decimalForm item ++ ", ")) ++ "\x7d"), none)
    ∧ Encode (.seq [.int 1, .int 2, .int 3, .int 4, .int 5])
      = ("return \x7b 1, 2, 3, 4, 5, \x7d", none)
    ∧ fieldLine 1 (⟨"Ints", "", false, "ints"⟩, .seq [.int 1, .int 2, .int 3])
      = "  ints = \x7b 1, 2, 3, \x7d,\n" :=
  ⟨(integer_sequence_text [.int 1, .int 2, .int 3, .int 4, .int 5] 1 (by simp)
      (by intro item h; simp at h; rcases h with h | h | h | h | h <;> rw [h] <;> exact Or.inl rfl)).2.2.1,
    rfl, rfl⟩

/-! ## Zero values and records without entries (C16, C19) -/

/-- C16: in a record whose fields carry no `omitempty` option, every field
that is visible (exported or embedded) and not skipped is written, so there are
as many entry lines as such fields; a field holding a zero value is written
too, the empty string as two apostrophes, the integer zero as `0`, false as
`false` and the floating-point zero as `0`. -/
theorem zero_value_fields_emitted (fields : List (StructField × GoValue)) (n : Nat)
    (hflag : ∀ fv ∈ fields, (parseTag fv.1.luaTag).2.Contains "omitempty" = false) :
    emittedFields fields = fields.filter (fun fv => !fieldHidden fv.1 && !fieldDash fv.1)
    ∧ reflectStringifyStruct fields n
      = ("\x7b\n" ++ concat ((emittedFields fields).map (fieldLine n))
          ++ (Repeat " " (2 * (n - 1)) ++ "\x7d"), none)
    ∧ ((emittedFields fields).map (fieldLine n)).length
      = (fields.filter (fun fv => !fieldHidden fv.1 && !fieldDash fv.1)).length
    ∧ (∀ (m : Nat) (options : tagOptions) (field : StructField),
        structValueString (.str "") m options field = ("''", none)
        ∧ structValueString (.int 0) m options field = ("0", none)
        ∧ structValueString (.uint 0) m options field = ("0", none)
        ∧ structValueString (.bool false) m options field = ("false", none)
        ∧ structValueString (.float (.zero false)) m options field = ("0", none)) := by
  have he : emittedFields fields
      = fields.filter (fun fv => !fieldHidden fv.1 && !fieldDash fv.1) := by
    unfold emittedFields
    apply List.filter_congr
    intro fv hfv
    simp [fieldEmitted, fieldOmitted, hflag fv hfv]
  refine ⟨he, reflectStringifyStruct_eq fields n, ?_, ?_⟩
  · rw [List.length_map, he]
  · intro m options field
    refine ⟨rfl, rfl, rfl, rfl, rfl⟩

theorem zero_value_fields_emitted_witness :
    ((emittedFields [(⟨"StringValue", "", false, "string_value"⟩, .str ""),
        (⟨"NumberValue", "", false, "int_value"⟩, .int 0),
        (⟨"BoolValue", "", false, "bool_value"⟩, .bool false),
        (⟨"FloatValue", "", false, "float_value"⟩, .float (.zero false))]).map
          (fieldLine 1)).length = 4
    ∧ reflectStringifyStruct [(⟨"StringValue", "", false, "string_value"⟩, .str ""),
        (⟨"NumberValue", "", false, "int_value"⟩, .int 0),
        (⟨"BoolValue", "", false, "bool_value"⟩, .bool false),
        (⟨"FloatValue", "", false, "float_value"⟩, .float (.zero false))] 1
      = ("\x7b\n  string_value = '',\n  int_value = 0,\n  bool_value = false,\n"
          ++ "  float_value = 0,\n\x7d", none) :=
  ⟨(zero_value_fields_emitted [(⟨"StringValue", "", false, "string_value"⟩, .str ""),
        (⟨"NumberValue", "", false, "int_value"⟩, .int 0),
        (⟨"BoolValue", "", false, "bool_value"⟩, .bool false),
        (⟨"FloatValue", "", false, "float_value"⟩, .float (.zero false))] 1
      (by intro fv h; simp at h; rcases h with h | h | h | h <;> rw [h] <;> rfl)).2.2.1,
    rfl⟩

/-- C19: a record of which no field is emitted is written, at depth `d`, as the
opening brace, a line feed, `2 d` spaces and the closing brace, and at the root
as `return {`, a line feed and `}`; this is not the text `{}` that an empty
sequence and an empty mapping are written as. -/
theorem empty_record_text (fields : List (StructField × GoValue)) (d : Nat)
    (h : emittedFields fields = []) :
    reflectStringifyStruct fields (d + 1) = ("\x7b\n" ++ Repeat " " (2 * d) ++ "\x7d", none)
    ∧ Encode (.struct fields) = ("return \x7b\n\x7d", none)
    ∧ reflectStringifyStruct fields (d + 1) ≠ ("\x7b\x7d", none)
    ∧ reflectStringifyArray [] (d + 1) = ("\x7b\x7d", none)
    ∧ reflectStringifyMap [] (d + 1) = ("\x7b\x7d", none) := by
  have hs : ∀ m, reflectStringifyStruct fields (m + 1)
      = ("\x7b\n" ++ Repeat " " (2 * m) ++ "\x7d", none) := by
    intro m
    rw [reflectStringifyStruct_eq, h]
    simp [concat, String.append_assoc]
  refine ⟨hs d, ?_, ?_, rfl, rfl⟩
  · rw [Encode_eq]
    have hn : rootIsNil (.struct fields) = false := rfl
    simp only [hn, Bool.false_eq_true, if_false, resolvePtr]
    rw [hs 0]
    rfl
  · rw [hs d]
    intro hc
    have h2 := congrArg (fun r : Result => startsMultiline r.1) hc
    simp only [String.append_assoc] at h2
    rw [startsMultiline_open_lf] at h2
    exact absurd h2 (by decide)

theorem empty_record_text_witness :
    emittedFields [(⟨"hidden", "main", false, "hidden"⟩, .int 1),
        (⟨"Skipped", "", false, "-"⟩, .int 2),
        (⟨"Empty", "", false, "empty,omitempty"⟩, .int 0)] = []
    ∧ Encode (.struct [(⟨"hidden", "main", false, "hidden"⟩, .int 1),
        (⟨"Skipped", "", false, "-"⟩, .int 2),
        (⟨"Empty", "", false, "empty,omitempty"⟩, .int 0)]) = ("return \x7b\n\x7d", none) :=
  ⟨rfl, (empty_record_text [(⟨"hidden", "main", false, "hidden"⟩, .int 1),
        (⟨"Skipped", "", false, "-"⟩, .int 2),
        (⟨"Empty", "", false, "empty,omitempty"⟩, .int 0)] 0 rfl).2.1⟩

/-! ## Nil leaves (C17) -/

theorem valueString_nil_leaf : ∀ (v : GoValue) (options : tagOptions) (field : StructField),
    leafIsNil v = true → valueString v options field = "nil"
  | .ptr target, options, field, h => by
    rw [valueString]
    exact valueString_nil_leaf target options field h
  | .nilPtr, _, _, _ => rfl
  | .other, _, _, _ => rfl
  | .invalid, _, _, h | .bool _, _, _, h | .int _, _, _, h | .uint _, _, _, h
  | .float _, _, _, h | .str _, _, _, h | .nilIface, _, _, h | .iface _, _, _, h
  | .seq _, _, _, h | .map _, _, _, h | .struct _, _, _, h => by
    simp [leafIsNil, resolvePtr, GoValue.Kind] at h

theorem structValueString_nil_leaf : ∀ (v : GoValue) (n : Nat) (options : tagOptions)
    (field : StructField), leafIsNil v = true → structValueString v n options field = ("nil", none)
  | .ptr target, n, options, field, h => by
    rw [structValueString]
    exact structValueString_nil_leaf target n options field h
  | .nilPtr, _, _, _, _ => rfl
  | .other, _, _, _, _ => rfl
  | .invalid, _, _, _, h | .bool _, _, _, _, h | .int _, _, _, _, h | .uint _, _, _, _, h
  | .float _, _, _, _, h | .str _, _, _, _, h | .nilIface, _, _, _, h | .iface _, _, _, _, h
  | .seq _, _, _, _, h | .map _, _, _, _, h | .struct _, _, _, _, h => by
    simp [leafIsNil, resolvePtr, GoValue.Kind] at h

theorem Encode_table_no_error (value : GoValue)
    (h : value.Kind = Kind.Slice ∨ value.Kind = Kind.Map ∨ value.Kind = Kind.Struct) :
    (Encode value).2 = none := by
  rw [Encode_eq]
  cases value <;> simp [GoValue.Kind] at h <;> simp [rootIsNil, resolvePtr, GoValue.Kind]

/-- C17: a leaf that is a reference to nothing, or a scalar of a kind the
encoder has no case for, is written `nil` by `valueString`, and so it is as an
element of a sequence, as a value of a mapping and as a record field; `Encode`
of the sequence, mapping or record that holds it returns no error. -/
theorem nil_leaf_text (v : GoValue) (n : Nat) (options : tagOptions) (field : StructField)
    (h : leafIsNil v = true) :
    valueString v options field = "nil"
    ∧ arrayItemString v n = ("nil", none)
    ∧ mapValueString v n = ("nil", none)
    ∧ structValueString v n options field = ("nil", none)
    ∧ (∀ rest, (Encode (.seq (v :: rest))).2 = none)
    ∧ (∀ key rest, (Encode (.map ((key, v) :: rest))).2 = none)
    ∧ (∀ f rest, (Encode (.struct ((f, v) :: rest))).2 = none) := by
  refine ⟨valueString_nil_leaf v options field h, ?_, ?_,
    structValueString_nil_leaf v n options field h,
    fun rest => Encode_table_no_error _ (Or.inl rfl),
    fun key rest => Encode_table_no_error _ (Or.inr (Or.inl rfl)),
    fun f rest => Encode_table_no_error _ (Or.inr (Or.inr rfl))⟩
  · have hv := valueString_nil_leaf v [] ⟨"", "", false, ""⟩ h
    cases v <;> first
      | (simp [leafIsNil, resolvePtr, GoValue.Kind] at h; done)
      | (rw [arrayItemString, hv])
  · have hv := valueString_nil_leaf v [] ⟨"", "", false, ""⟩ h
    cases v <;> first
      | (simp [leafIsNil, resolvePtr, GoValue.Kind] at h; done)
      | (rw [mapValueString, hv])

theorem nil_leaf_text_witness :
    leafIsNil (.ptr .nilPtr) = true
    ∧ valueString (.ptr .nilPtr) [] ⟨"", "", false, ""⟩ = "nil"
    ∧ Encode (.seq [.ptr .nilPtr, .ptr (.ptr (.int 1))]) = ("return \x7b nil, 1, \x7d", none) :=
  ⟨rfl, (nil_leaf_text (.ptr .nilPtr) 1 [] ⟨"", "", false, ""⟩ rfl).1, rfl⟩

/-! ## The token of a string on one line (C20) -/

theorem valueString_str_data (s : String) (options : tagOptions) (field : StructField) :
    (valueString (.str s) options field).data
      = '\'' :: (s.data.flatMap escapedChar ++ ['\'']) := by
  rw [valueString]
  simp only [String.data_append, ReplaceAll]
  rw [replaceChars_twice]
  rfl

theorem escapedChar_no_lf (c : Char) : '\n' ∉ escapedChar c := by
  unfold escapedChar
  by_cases h1 : c = '\''
  · simp [h1]
  · by_cases h2 : c = '\n'
    · simp [h2]
    · simp only [h1, h2, if_false, List.mem_singleton]
      exact fun h => h2 h.symm

theorem flatMap_escaped_apostrophes : ∀ (cs : List Char) (prev : Char),
    apostrophesEscaped prev (cs.flatMap escapedChar) = true
  | [], _ => rfl
  | c :: rest, prev => by
    rw [List.flatMap_cons]
    by_cases h1 : c = '\''
    · have e : escapedChar c = ['\\', '\''] := by simp [escapedChar, h1]
      rw [e]
      simp [apostrophesEscaped, flatMap_escaped_apostrophes rest '\'']
    · by_cases h2 : c = '\n'
      · have e : escapedChar c = ['\\', 'n'] := by simp [escapedChar, h2]
        rw [e]
        simp [apostrophesEscaped, flatMap_escaped_apostrophes rest 'n']
      · have e : escapedChar c = [c] := by simp [escapedChar, h1, h2]
        rw [e]
        simp [apostrophesEscaped, h1, flatMap_escaped_apostrophes rest c]

theorem apostrophesEscaped_get : ∀ (l : List Char) (prev : Char),
    apostrophesEscaped prev l = true → ∀ i : Nat, l[i]? = some '\'' →
      (prev :: l)[i]? = some '\\'
  | [], _, _, i, h => by simp at h
  | c :: cs, prev, hl, 0, h => by
    have hc : c = '\'' := by simpa using h
    have hp : prev = '\\' := by
      have h2 := hl
      simp [apostrophesEscaped, hc] at h2
      exact h2.1
    simp [hp]
  | c :: cs, prev, hl, i + 1, h => by
    have hl2 : apostrophesEscaped c cs = true := by
      simp only [apostrophesEscaped, Bool.and_eq_true] at hl
      exact hl.2
    rw [List.getElem?_cons_succ] at h ⊢
    exact apostrophesEscaped_get cs c hl2 i h

/-- C20: the token of a string scalar holds no line feed, begins and ends with
an apostrophe, and every apostrophe of it that is neither its first nor its
last character stands right after a backslash; the token is therefore on one
line. -/
theorem string_token_one_line (s : String) (options : tagOptions) (field : StructField) :
    '\n' ∉ (valueString (.str s) options field).data
    ∧ (valueString (.str s) options field).data.head? = some '\''
    ∧ (valueString (.str s) options field).data.getLast? = some '\''
    ∧ ∀ i, 0 < i → i + 1 < (valueString (.str s) options field).data.length →
        (valueString (.str s) options field).data[i]? = some '\'' →
        (valueString (.str s) options field).data[i - 1]? = some '\\' := by
  rw [valueString_str_data]
  refine ⟨?_, rfl, ?_, ?_⟩
  · intro h
    rcases List.mem_cons.1 h with h1 | h1
    · exact absurd h1 (by decide)
    · rcases List.mem_append.1 h1 with h2 | h2
      · obtain ⟨c, _, hc⟩ := List.mem_flatMap.1 h2
        exact escapedChar_no_lf c hc
      · exact absurd h2 (by decide)
  · rw [← List.cons_append, List.getLast?_concat]
  · intro i hi hlen hget
    obtain ⟨k, rfl⟩ : ∃ k, i = k + 1 := ⟨i - 1, by omega⟩
    have hk : k < (s.data.flatMap escapedChar).length := by
      simp only [List.length_cons, List.length_append, List.length_nil] at hlen
      omega
    rw [List.getElem?_cons_succ, List.getElem?_append_left hk] at hget
    have hb := apostrophesEscaped_get _ '\'' (flatMap_escaped_apostrophes s.data '\'') k hget
    rw [Nat.add_sub_cancel, ← List.cons_append,
      List.getElem?_append_left (by simp only [List.length_cons]; omega)]
    exact hb

end luatable
